import Mathlib

/-!
Shallow embedding of the axhandle MCP specification parser
(src/parser/mcpSpecParser.ts) and error utilities (src/utils/errorUtils.ts),
with theorems checking the natural-language specification against the code.

Pure data is translated to Lean structures; the TypeScript syntax-tree
shapes the parser inspects are translated to inductive types carrying
exactly the information the parser reads (node kind, name text, type
arguments, question token, JSDoc text); the filesystem interactions of the
cache layer are translated to an explicit filesystem-outcome state, and
thrown JavaScript values to an explicit error type distinguishing
`instanceof Error` values from plain thrown objects.
-/

namespace Axhandle

/-! ## Data model (src/types, shapes as used by mcpSpecParser.ts) -/

/-- McpOperation record: name, description, inputType, outputType, required. -/
structure McpOperation where
  name : String
  description : String
  inputType : String
  outputType : String
  required : Bool
deriving Repr, DecidableEq

/-- McpField record: name, type, required, repeated, description. -/
structure McpField where
  name : String
  type : String
  required : Bool
  repeated : Bool
  description : String
deriving Repr, DecidableEq

/-- McpType record: name, description, fields. -/
structure McpType where
  name : String
  description : String
  fields : List McpField
deriving Repr, DecidableEq

/-- McpCapability record: name, description, required. -/
structure McpCapability where
  name : String
  description : String
  required : Bool
deriving Repr, DecidableEq

/-- McpSpecification record: version, operations, types, capabilities. -/
structure McpSpecification where
  version : String
  operations : List McpOperation
  types : List McpType
  capabilities : List McpCapability
deriving Repr, DecidableEq

/-! ## Error model

Thrown values in the TypeScript code are either genuine `Error` instances
(from fs or other low-level libraries) or plain `AxeError` object literals
(`createParserError` returns an object literal, not an `Error` subclass).
`ErrVal` covers both; `instanceof Error` corresponds to the `jsError`
constructor. An AxeError's `cause` may be either kind, hence the nesting. -/

/-- ErrVal: a thrown JavaScript error-like value. `jsError` is a value that
is an `instanceof Error` (carrying its message); `axeError` is a plain
AxeError object literal with code, message, optional details map and
optional cause. -/
inductive ErrVal where
  | jsError (message : String)
  | axeError (code : String) (message : String)
      (details : Option (List (String × String))) (cause : Option ErrVal)
deriving Repr

/-- ErrVal.isAxeError: true exactly on plain AxeError object values. -/
def ErrVal.isAxeError : ErrVal → Bool
  | .axeError _ _ _ _ => true
  | .jsError _ => false

/-- ErrVal.codeOf: the `code` field of an AxeError value, if any. -/
def ErrVal.codeOf : ErrVal → Option String
  | .axeError c _ _ _ => some c
  | .jsError _ => none

/-- Modelled from the spec: the string values of the enum constants
`ErrorPrefix.AXE` and `AxeErrorCategory.PARSER` live in src/types.ts, which
is absent from the repository snapshot; the spec fixes only the code shape
`<PREFIX>-<CATEGORY><NNN>` with the AXE parser prefix. The concrete strings
chosen here are placeholders; every theorem below depends only on the
template shape `${ErrorPrefix.AXE}-${AxeErrorCategory.PARSER}${padded}`
visible in createParserError (mcpSpecParser.ts line 44). -/
def AXE_TAG : String := "AXE"

/-- Modelled from the spec: the parser category tag, see `AXE_TAG`. -/
def PARSER_TAG : String := "PARSER"

/-- Fixed leading part of every parser error code:
`${ErrorPrefix.AXE}-${AxeErrorCategory.PARSER}`. -/
def axeParserCodeStart : String := AXE_TAG ++ "-" ++ PARSER_TAG

/-- padStart3 models `String(code).padStart(3, '0')`. -/
def padStart3 (n : Nat) : String :=
  let s := toString n
  if s.length < 3 then String.mk (List.replicate (3 - s.length) (Char.ofNat 48)) ++ s
  else s

/-- MCP_SPEC_PATH: resolved path of the schema source file (concrete value
is environment-dependent; a fixed stand-in string). -/
def MCP_SPEC_PATH : String := "schemas/mcp-spec/schema.ts"

/-- createParserError (mcpSpecParser.ts lines 37-49): builds a plain
AxeError object with code `${ErrorPrefix.AXE}-${AxeErrorCategory.PARSER}`
followed by the zero-padded numeric code. -/
def createParserError (code : Nat) (message : String)
    (details : Option (List (String × String)) := none)
    (cause : Option ErrVal := none) : ErrVal :=
  .axeError (axeParserCodeStart ++ padStart3 code) message details cause

/-! ## Syntax-tree model

The parser inspects only a small fixed vocabulary of TypeScript AST shapes.
`TypeNode` models type annotations as read by isRepeatedType /
extractFieldType / extractInputType: array types, type references (with the
`typeName.getText()` string and the optional typeArguments list — in the
TypeScript API `typeArguments` is `undefined` when no angle brackets are
written, hence the `Option`), union types, and everything else via its
source text. -/

/-- TypeNode: the type-annotation shapes inspected by the parser. -/
inductive TypeNode where
  | typeRef (name : String) (typeArguments : Option (List TypeNode))
  | arrayType (elementType : TypeNode)
  | unionType (types : List TypeNode)
  | other (text : String)
deriving Repr

mutual

/-- TypeNode.getText models `node.getText()`: the source text of a type
node, reconstructed from its structure. -/
def TypeNode.getText : TypeNode → String
  | .typeRef n none => n
  | .typeRef n (some args) => n ++ "<" ++ TypeNode.getTextList ", " args ++ ">"
  | .arrayType e => TypeNode.getText e ++ "[]"
  | .unionType ts_ => TypeNode.getTextList " | " ts_
  | .other s => s

/-- TypeNode.getTextList joins the texts of a node list with a separator. -/
def TypeNode.getTextList (sep : String) : List TypeNode → String
  | [] => ""
  | [t] => TypeNode.getText t
  | t :: ts_ => TypeNode.getText t ++ sep ++ TypeNode.getTextList sep ts_

end

/-- Member: an interface member as inspected by the parser. `propSig`
carries the data a property signature exposes: `name.getText()` (which may
include quote characters for string-literal names), the presence of a
question token, the optional type annotation, and the JSDoc comment text
returned by getJSDocComment (None when absent). All other member kinds
(method signatures, index signatures, ...) are skipped by every walk. -/
inductive Member where
  | propSig (name : String) (questionToken : Bool)
      (type : Option TypeNode) (jsDoc : Option String)
  | otherMember
deriving Repr

/-- VarInit: the initializer of a variable declaration, as inspected by the
version-extraction walk (string literal or anything else). -/
inductive VarInit where
  | strLit (text : String)
  | otherInit
deriving Repr

/-- VarDecl: a variable declaration; `name` is some identifier text when
`declaration.name` is an identifier, none for binding patterns. -/
structure VarDecl where
  name : Option String
  init : Option VarInit
deriving Repr

/-- TopDecl: a top-level declaration of the schema source file as seen by
the forEachChild walk in parseFromSource. -/
inductive TopDecl where
  | varStmt (decls : List VarDecl)
  | interfaceDecl (name : String) (jsDoc : Option String) (members : List Member)
  | otherDecl
deriving Repr

/-- strEndsWith models the `interfaceName.endsWith('Type')` test; defined
over the character list so that concrete instances evaluate by kernel
reduction. -/
def strEndsWith (s suf : String) : Bool := suf.data.isSuffixOf s.data

/-- stripQuotes models `.replace(/['"]/g, '')`: removes every single- and
double-quote character. -/
def stripQuotes (s : String) : String :=
  String.mk (s.data.filter (fun c => c ≠ Char.ofNat 39 ∧ c ≠ Char.ofNat 34))

/-- orDefaultStr models the JavaScript `a || b` used on optional
description strings: the default is taken when the value is absent or the
empty string (both falsy). -/
def orDefaultStr (v : Option String) (dflt : String) : String :=
  match v with
  | some s => if s == "" then dflt else s
  | none => dflt

/-! ## Type extraction (mcpSpecParser.ts lines 322-404) -/

/-- extractInputType (lines 322-327): first type argument's source text,
defaulting to the untyped placeholder when absent. -/
def extractInputType (typeArguments : Option (List TypeNode)) : String :=
  match typeArguments with
  | some (a :: _) => a.getText
  | _ => "any"

/-- extractOutputType (lines 334-339): second type argument's source text,
defaulting to the untyped placeholder when absent. -/
def extractOutputType (typeArguments : Option (List TypeNode)) : String :=
  match typeArguments with
  | some (_ :: b :: _) => b.getText
  | _ => "any"

/-- isRepeatedType (lines 385-404): true for `T[]` array type nodes and for
type references named `Array` that carry at least one type argument; false
for every other shape and for a missing annotation. -/
def isRepeatedType : Option TypeNode → Bool
  | none => false
  | some (.arrayType _) => true
  | some (.typeRef n (some args)) => n == "Array" && !args.isEmpty
  | some _ => false

/-- extractFieldTypeCore: extractFieldType on a present type node. Mirrors
the branch structure of lines 346-378: repeated shapes recurse into the
element type; type references yield `typeName.getText()`; unions recurse
into `types[0]` (an absent first element — impossible in real TypeScript
syntax — would flow through the `undefined` branch and yield the untyped
placeholder); all remaining nodes yield their source text. -/
def extractFieldTypeCore : TypeNode → String
  | .arrayType e => extractFieldTypeCore e
  | .typeRef n (some (a :: _)) =>
      if n == "Array" then extractFieldTypeCore a else n
  | .typeRef n none => n
  | .typeRef n (some []) => n
  | .unionType [] => "any"
  | .unionType (a :: _) => extractFieldTypeCore a
  | .other s => s

/-- extractFieldType (lines 346-378) on an optional type annotation:
`'any'` when the annotation is absent. -/
def extractFieldType : Option TypeNode → String
  | none => "any"
  | some t => extractFieldTypeCore t

/-! ## Interface walks (mcpSpecParser.ts lines 235-315) -/

/-- parseOperationsInterface (lines 235-254): each property signature whose
type annotation is present and is a type-reference node yields one
McpOperation, in member order; every other member is skipped. -/
def parseOperationsInterface : List Member → List McpOperation
  | [] => []
  | .propSig nm q (some (.typeRef _tn args)) doc :: rest =>
      { name := stripQuotes nm
        description := orDefaultStr doc ("MCP " ++ stripQuotes nm ++ " operation")
        inputType := extractInputType args
        outputType := extractOutputType args
        required := !q } :: parseOperationsInterface rest
  | _ :: rest => parseOperationsInterface rest

/-- parseTypeFields: the member loop of parseTypeInterface (lines 266-282);
every property signature yields one McpField, in member order. -/
def parseTypeFields : List Member → List McpField
  | [] => []
  | .propSig nm q ty doc :: rest =>
      { name := stripQuotes nm
        type := extractFieldType ty
        required := !q
        repeated := isRepeatedType ty
        description := orDefaultStr doc (stripQuotes nm ++ " field") } :: parseTypeFields rest
  | .otherMember :: rest => parseTypeFields rest

/-- parseTypeInterface (lines 261-293): a type interface becomes an McpType
from its extracted fields, or nothing when zero fields were extracted. -/
def parseTypeInterface (name : String) (jsDoc : Option String)
    (members : List Member) : Option McpType :=
  let fields := parseTypeFields members
  if fields.length == 0 then none
  else some { name := name, description := orDefaultStr jsDoc ("MCP " ++ name), fields := fields }

/-- parseCapabilitiesInterface (lines 300-315): every property signature
yields one McpCapability, in member order. -/
def parseCapabilitiesInterface : List Member → List McpCapability
  | [] => []
  | .propSig nm q _ doc :: rest =>
      { name := stripQuotes nm
        description := orDefaultStr doc ("MCP " ++ stripQuotes nm ++ " capability")
        required := !q } :: parseCapabilitiesInterface rest
  | .otherMember :: rest => parseCapabilitiesInterface rest

/-! ## Top-level walk (mcpSpecParser.ts lines 163-228) -/

/-- initialSpec: the specification before the walk (line 177-182), with the
default version string. -/
def initialSpec : McpSpecification :=
  { version := "1.0.0", operations := [], types := [], capabilities := [] }

/-- visitVarDecl: the version-extraction branch (lines 187-198) applied to
one variable declaration. -/
def visitVarDecl (spec : McpSpecification) (d : VarDecl) : McpSpecification :=
  match d.name, d.init with
  | some n, some (.strLit txt) =>
      if n == "MCP_VERSION" then { spec with version := txt } else spec
  | _, _ => spec

/-- visitOperationsStep: the `interfaceName === 'McpOperations'` branch
(lines 205-207), which pushes the parsed operations. -/
def visitOperationsStep (spec : McpSpecification) (interfaceName : String)
    (members : List Member) : McpSpecification :=
  if interfaceName == "McpOperations" then
    { spec with operations := spec.operations ++ parseOperationsInterface members }
  else spec

/-- visitTypesStep: the suffix-named type branch (lines 210-215), which may
push one parsed type. -/
def visitTypesStep (spec : McpSpecification) (interfaceName : String)
    (jsDoc : Option String) (members : List Member) : McpSpecification :=
  if strEndsWith interfaceName "Type" && interfaceName != "McpType" then
    match parseTypeInterface interfaceName jsDoc members with
    | some t => { spec with types := spec.types ++ [t] }
    | none => spec
  else spec

/-- visitCapabilitiesStep: the `interfaceName === 'McpCapabilities'` branch
(lines 218-220), which pushes the parsed capabilities. -/
def visitCapabilitiesStep (spec : McpSpecification) (interfaceName : String)
    (members : List Member) : McpSpecification :=
  if interfaceName == "McpCapabilities" then
    { spec with capabilities := spec.capabilities ++ parseCapabilitiesInterface members }
  else spec

/-- visitNode: one iteration of the forEachChild walk (lines 185-222): a
variable statement may set the version; an interface declaration runs the
three independent name checks in source order. -/
def visitNode (spec : McpSpecification) (node : TopDecl) : McpSpecification :=
  match node with
  | .varStmt decls => decls.foldl visitVarDecl spec
  | .interfaceDecl interfaceName jsDoc members =>
      visitCapabilitiesStep
        (visitTypesStep (visitOperationsStep spec interfaceName members)
          interfaceName jsDoc members)
        interfaceName members
  | .otherDecl => spec

/-- buildSpec: the full forEachChild walk over the top-level declarations. -/
def buildSpec (decls : List TopDecl) : McpSpecification :=
  decls.foldl visitNode initialSpec

/-! ## Validation (mcpSpecParser.ts lines 428-466) -/

/-- requiredOperations: the fixed canonical operation-name list of line 447,
enumerated in this order. -/
def requiredOperations : List String := ["Get", "List", "Create", "Update", "Delete"]

/-- hasOperation models `spec.operations.some(op => op.name === requiredOp)`. -/
def hasOperation (spec : McpSpecification) (opName : String) : Bool :=
  spec.operations.any (fun op => op.name == opName)

/-- firstMissingOperation: the first entry of requiredOperations for which
the specification has no operation of that name — the operation whose check
the `for` loop of lines 448-456 fails on. -/
def firstMissingOperation (spec : McpSpecification) : Option String :=
  requiredOperations.find? (fun r => !hasOperation spec r)

/-- validateSpecification (lines 428-466): the four post-walk checks, in
source order, each throwing a distinct parser error; Except.error models
the throw. -/
def validateSpecification (spec : McpSpecification) : Except ErrVal Unit :=
  if spec.operations.length == 0 then
    .error (createParserError 2 "MCP specification does not define any operations"
      (some [("path", MCP_SPEC_PATH)]))
  else if spec.types.length == 0 then
    .error (createParserError 3 "MCP specification does not define any types"
      (some [("path", MCP_SPEC_PATH)]))
  else
    match firstMissingOperation spec with
    | some requiredOp =>
        .error (createParserError 4
          ("MCP specification is missing required operation: " ++ requiredOp)
          (some [("path", MCP_SPEC_PATH)]))
    | none =>
        if spec.capabilities.length == 0 then
          .error (createParserError 5 "MCP specification does not define any capabilities"
            (some [("path", MCP_SPEC_PATH)]))
        else .ok ()

/-! ## Filesystem model and the cached pipeline (mcpSpecParser.ts lines 75-157)

The async filesystem calls the parser makes are modelled by a state
recording each call's outcome: whether `fs.access` on the cache succeeds,
the `fs.stat` results (None models a rejected stat), the combined
read-plus-JSON.parse outcome of the cache file (the `as McpSpecification`
cast does not validate, so a hand-edited cache decodes to an arbitrary
specification value), the read-plus-createSourceFile outcome of the schema
source (createSourceFile itself never throws), and whether the cache write
succeeds. -/

/-- FsState: outcomes of the filesystem interactions of one run. -/
structure FsState where
  cacheAccessOk : Bool
  cacheStat : Option Int
  sourceStat : Option Int
  cacheParsed : Except Unit McpSpecification
  sourceRead : Except String (List TopDecl)
  cacheWriteOk : Bool

/-- loadFromCache (lines 107-135): null when the cache file is absent, when
either stat rejects (the surrounding try/catch turns any failure into
null), when the cache mtime is not strictly newer than the source mtime, or
when reading/JSON-parsing the cache fails; otherwise the deserialized
specification. -/
def loadFromCache (fs : FsState) : Option McpSpecification :=
  if !fs.cacheAccessOk then none
  else
    match fs.cacheStat, fs.sourceStat with
    | some cacheMtime, some sourceMtime =>
        if cacheMtime ≤ sourceMtime then none
        else
          match fs.cacheParsed with
          | .ok spec => some spec
          | .error _ => none
    | _, _ => none

/-- parseFromSource (lines 163-228): read failures surface as thrown Error
instances; otherwise the walk builds the specification and validation may
throw a parser AxeError. -/
def parseFromSource (fs : FsState) : Except ErrVal McpSpecification :=
  match fs.sourceRead with
  | .error message => .error (.jsError message)
  | .ok decls =>
      let spec := buildSpec decls
      match validateSpecification spec with
      | .error e => .error e
      | .ok _ => .ok spec

/-- cacheSpecification (lines 141-157): best-effort write; a failure is
swallowed and surfaces only as a console warning, modelled as the returned
warning list. -/
def cacheSpecification (fs : FsState) (spec : McpSpecification) : List String :=
  let _ := spec
  if fs.cacheWriteOk then [] else ["Failed to cache MCP specification"]

/-- parseSpecificationFull (lines 75-101): the result together with the
warnings printed along the way. The catch block wraps a thrown
`instanceof Error` value in parser error 1 with the original as cause and
rethrows every other thrown value (in particular the plain AxeError objects
of validateSpecification) unchanged. -/
def parseSpecificationFull (fs : FsState) :
    Except ErrVal McpSpecification × List String :=
  match loadFromCache fs with
  | some cachedSpec => (.ok cachedSpec, [])
  | none =>
      match parseFromSource fs with
      | .ok parsedSpec => (.ok parsedSpec, cacheSpecification fs parsedSpec)
      | .error (.jsError message) =>
          (.error (createParserError 1 "Failed to parse MCP specification"
            (some [("path", MCP_SPEC_PATH)]) (some (.jsError message))), [])
      | .error e => (.error e, [])

/-- parseSpecification: the value returned (or error thrown) by
`parseSpecification()`. -/
def parseSpecification (fs : FsState) : Except ErrVal McpSpecification :=
  (parseSpecificationFull fs).1

/-! ## JSON serialization of the specification (cache file format)

The cache stores `JSON.stringify(spec, null, 2)` and reloads it with
`JSON.parse`. A specification holds only strings, booleans, arrays and
plain objects, all of which JSON round-trips exactly. The Json type below
models the values this serialization produces; encode mirrors
JSON.stringify on the specification records and decode mirrors what the
subsequent field accesses read back out of the parsed value. -/

/-- Json: the JSON values arising from serializing a specification. -/
inductive Json where
  | str (s : String)
  | bool (b : Bool)
  | arr (elems : List Json)
  | obj (fields : List (String × Json))
deriving Repr

/-- encodeOperation: JSON object for an McpOperation. -/
def encodeOperation (op : McpOperation) : Json :=
  .obj [("name", .str op.name), ("description", .str op.description),
        ("inputType", .str op.inputType), ("outputType", .str op.outputType),
        ("required", .bool op.required)]

/-- decodeOperation: reads an McpOperation back out of its JSON object. -/
def decodeOperation : Json → Option McpOperation
  | .obj [("name", .str n), ("description", .str d),
          ("inputType", .str i), ("outputType", .str o),
          ("required", .bool r)] =>
      some { name := n, description := d, inputType := i, outputType := o, required := r }
  | _ => none

/-- encodeField: JSON object for an McpField. -/
def encodeField (f : McpField) : Json :=
  .obj [("name", .str f.name), ("type", .str f.type),
        ("required", .bool f.required), ("repeated", .bool f.repeated),
        ("description", .str f.description)]

/-- decodeField: reads an McpField back out of its JSON object. -/
def decodeField : Json → Option McpField
  | .obj [("name", .str n), ("type", .str t),
          ("required", .bool r), ("repeated", .bool rep),
          ("description", .str d)] =>
      some { name := n, type := t, required := r, repeated := rep, description := d }
  | _ => none

/-- encodeType: JSON object for an McpType. -/
def encodeType (t : McpType) : Json :=
  .obj [("name", .str t.name), ("description", .str t.description),
        ("fields", .arr (t.fields.map encodeField))]

/-- decodeList: decodes every element of a JSON array, failing when any
element fails. -/
def decodeList {α : Type} (dec : Json → Option α) : List Json → Option (List α)
  | [] => some []
  | j :: rest =>
      match dec j, decodeList dec rest with
      | some a, some as_ => some (a :: as_)
      | _, _ => none

/-- decodeType: reads an McpType back out of its JSON object. -/
def decodeType : Json → Option McpType
  | .obj [("name", .str n), ("description", .str d), ("fields", .arr fs)] =>
      match decodeList decodeField fs with
      | some fields => some { name := n, description := d, fields := fields }
      | none => none
  | _ => none

/-- encodeCapability: JSON object for an McpCapability. -/
def encodeCapability (c : McpCapability) : Json :=
  .obj [("name", .str c.name), ("description", .str c.description),
        ("required", .bool c.required)]

/-- decodeCapability: reads an McpCapability back out of its JSON object. -/
def decodeCapability : Json → Option McpCapability
  | .obj [("name", .str n), ("description", .str d), ("required", .bool r)] =>
      some { name := n, description := d, required := r }
  | _ => none

/-- encodeSpec: the JSON value `JSON.stringify` serializes for a
specification. -/
def encodeSpec (spec : McpSpecification) : Json :=
  .obj [("version", .str spec.version),
        ("operations", .arr (spec.operations.map encodeOperation)),
        ("types", .arr (spec.types.map encodeType)),
        ("capabilities", .arr (spec.capabilities.map encodeCapability))]

/-- decodeSpec: reads a specification back out of the parsed JSON value. -/
def decodeSpec : Json → Option McpSpecification
  | .obj [("version", .str v), ("operations", .arr ops),
          ("types", .arr tys), ("capabilities", .arr caps)] =>
      match decodeList decodeOperation ops, decodeList decodeType tys,
            decodeList decodeCapability caps with
      | some operations, some types, some capabilities =>
          some { version := v, operations := operations, types := types,
                 capabilities := capabilities }
      | _, _, _ => none
  | _ => none

/-! ## Error utilities (src/utils/errorUtils.ts) -/

/-- createError (errorUtils.ts lines 16-30): the generic AxeError builder;
`tagOf` is the `${prefix}-${category}` front of the code string. -/
def createError (tagOf : String) (code : Nat) (message : String)
    (details : Option (List (String × String))) (cause : Option ErrVal) : ErrVal :=
  .axeError (tagOf ++ padStart3 code) message details cause

/-- ThrownVal: a value thrown by a function wrapped with withErrorHandling.
`errVal` is an `instanceof Error` value, with or without a `code` property;
`axeErrorObject` is a plain AxeError object literal (not an Error instance,
so `error instanceof Error` is false on it); `otherVal` is any other thrown
value, carrying its `String(error)` form. -/
inductive ThrownVal where
  | errVal (hasCodeProp : Bool) (message : String)
  | axeErrorObject (e : ErrVal)
  | otherVal (stringForm : String)
deriving Repr

/-- stringOfThrown models `String(error)`: an Error stringifies through its
message, a plain object to the opaque object form, and any other value to
the stored string form. -/
def stringOfThrown : ThrownVal → String
  | .errVal _ message => "Error: " ++ message
  | .axeErrorObject _ => "[object Object]"
  | .otherVal s => s

/-- causeOfThrown models `error instanceof Error ? error : new Error(String(error))`
on the wrap path of withErrorHandling. -/
def causeOfThrown : ThrownVal → ErrVal
  | .errVal _ message => .jsError message
  | t => .jsError (stringOfThrown t)

/-- HandledThrow: what the wrapper built by withErrorHandling throws —
either the original value rethrown unchanged, or the freshly built
AxeError. -/
inductive HandledThrow where
  | rethrown (t : ThrownVal)
  | wrapped (e : ErrVal)
deriving Repr

/-- withErrorHandling (errorUtils.ts lines 216-237): wraps a call so that a
thrown value that is an `instanceof Error` carrying a `code` property is
rethrown unchanged, and every other thrown value is replaced by
`errorCreator(999, 'An unexpected error occurred', details naming fn,
cause)`. The wrapped computation is modelled as its outcome. -/
def withErrorHandling {R : Type} (fnName : String)
    (errorCreator : Nat → String → Option (List (String × String)) → Option ErrVal → ErrVal)
    (outcome : Except ThrownVal R) : Except HandledThrow R :=
  match outcome with
  | .ok r => .ok r
  | .error t =>
      match t with
      | .errVal true _ => .error (.rethrown t)
      | _ =>
          .error (.wrapped (errorCreator 999 "An unexpected error occurred"
            (some [("function", fnName)]) (some (causeOfThrown t))))

/-! ## Helper lemmas -/

/-- Nonempty lists have a length-is-zero test that is false. -/
lemma length_beq_zero_eq_false {α : Type} {l : List α} (h : l ≠ []) :
    (l.length == 0) = false := by
  cases l with
  | nil => exact absurd rfl h
  | cons a t => rfl

/-- find? returns the unique element satisfying the predicate when every
other element fails it. -/
lemma find?_eq_some_of_unique {α : Type} (l : List α) (p : α → Bool) (r : α)
    (hmem : r ∈ l) (hr : p r = true)
    (hothers : ∀ x ∈ l, x ≠ r → p x = false) : l.find? p = some r := by
  induction l with
  | nil => cases hmem
  | cons a t ih =>
      by_cases ha : a = r
      · subst ha
        simp [List.find?, hr]
      · have hpa : p a = false := hothers a (List.mem_cons_self a t) ha
        have hmem' : r ∈ t := by
          cases hmem with
          | head => exact absurd rfl ha
          | tail _ h => exact h
        simp [List.find?, hpa]
        exact ih hmem' (fun x hx hne => hothers x (List.mem_cons_of_mem a hx) hne)

/-- find? over a split list returns the marked element when everything
before it fails the predicate and it satisfies it. -/
lemma find?_append_cons {α : Type} (l1 l2 : List α) (p : α → Bool) (r : α)
    (h1 : ∀ x ∈ l1, p x = false) (hr : p r = true) :
    (l1 ++ r :: l2).find? p = some r := by
  induction l1 with
  | nil => simp [List.find?, hr]
  | cons a t ih =>
      have hpa : p a = false := h1 a (List.mem_cons_self a t)
      simp only [List.cons_append, List.find?, hpa]
      exact ih (fun x hx => h1 x (List.mem_cons_of_mem a hx))

/-- find? is none when every element fails the predicate. -/
lemma find?_eq_none_of_all {α : Type} (l : List α) (p : α → Bool)
    (h : ∀ x ∈ l, p x = false) : l.find? p = none := by
  induction l with
  | nil => rfl
  | cons a t ih =>
      have hpa : p a = false := h a (List.mem_cons_self a t)
      simp [List.find?, hpa]
      exact fun x hx => by simp [h x (List.mem_cons_of_mem a hx)]

/-- Field records survive the JSON round trip. -/
lemma decodeField_encodeField (f : McpField) : decodeField (encodeField f) = some f := rfl

/-- Operation records survive the JSON round trip. -/
lemma decodeOperation_encodeOperation (op : McpOperation) :
    decodeOperation (encodeOperation op) = some op := rfl

/-- Capability records survive the JSON round trip. -/
lemma decodeCapability_encodeCapability (c : McpCapability) :
    decodeCapability (encodeCapability c) = some c := rfl

/-- Lists of encodable records survive the JSON round trip elementwise. -/
lemma decodeList_map_encode {α : Type} (enc : α → Json) (dec : Json → Option α)
    (hroundtrip : ∀ a, dec (enc a) = some a) (l : List α) :
    decodeList dec (l.map enc) = some l := by
  induction l with
  | nil => rfl
  | cons a t ih => simp [decodeList, hroundtrip a, ih]

/-- Type records survive the JSON round trip. -/
lemma decodeType_encodeType (t : McpType) : decodeType (encodeType t) = some t := by
  cases t with
  | mk n d fields =>
      simp [encodeType, decodeType,
        decodeList_map_encode encodeField decodeField decodeField_encodeField]

/-- Specifications survive the JSON round trip: JSON.parse applied to
JSON.stringify of a parsed specification reads back the same value. -/
lemma decodeSpec_encodeSpec (spec : McpSpecification) :
    decodeSpec (encodeSpec spec) = some spec := by
  cases spec with
  | mk v ops tys caps =>
      simp [encodeSpec, decodeSpec,
        decodeList_map_encode encodeOperation decodeOperation decodeOperation_encodeOperation,
        decodeList_map_encode encodeType decodeType decodeType_encodeType,
        decodeList_map_encode encodeCapability decodeCapability decodeCapability_encodeCapability]

/-- parseTypeFields distributes over list append. -/
lemma parseTypeFields_append (xs ys : List Member) :
    parseTypeFields (xs ++ ys) = parseTypeFields xs ++ parseTypeFields ys := by
  induction xs with
  | nil => rfl
  | cons m rest ih =>
      cases m with
      | propSig nm q ty doc => simp [parseTypeFields, ih]
      | otherMember => simp [parseTypeFields, ih]

/-- visitVarDecl never touches the types list. -/
lemma visitVarDecl_types (s : McpSpecification) (d : VarDecl) :
    (visitVarDecl s d).types = s.types := by
  unfold visitVarDecl
  cases hd : d.name with
  | none => rfl
  | some n =>
      cases hi : d.init with
      | none => rfl
      | some i =>
          cases i with
          | strLit txt => by_cases h : (n == "MCP_VERSION") = true <;> simp [h]
          | otherInit => rfl

/-- Folding visitVarDecl never touches the types list. -/
lemma foldl_visitVarDecl_types (ds : List VarDecl) (s : McpSpecification) :
    (ds.foldl visitVarDecl s).types = s.types := by
  induction ds generalizing s with
  | nil => rfl
  | cons d rest ih => rw [List.foldl_cons, ih, visitVarDecl_types]

/-- parseTypeInterface only emits types whose fields list is non-empty. -/
lemma parseTypeInterface_fields_ne_nil {name : String} {jsDoc : Option String}
    {members : List Member} {t : McpType}
    (h : parseTypeInterface name jsDoc members = some t) : t.fields ≠ [] := by
  unfold parseTypeInterface at h
  by_cases hlen : ((parseTypeFields members).length == 0) = true
  · simp [hlen] at h
  · simp [hlen] at h
    intro hnil
    rw [← h] at hnil
    simp at hnil
    exact hlen (by rw [hnil]; rfl)

/-- visitOperationsStep never touches the types list. -/
lemma visitOperationsStep_types (s : McpSpecification) (n : String) (ms : List Member) :
    (visitOperationsStep s n ms).types = s.types := by
  unfold visitOperationsStep; split <;> rfl

/-- visitCapabilitiesStep never touches the types list. -/
lemma visitCapabilitiesStep_types (s : McpSpecification) (n : String) (ms : List Member) :
    (visitCapabilitiesStep s n ms).types = s.types := by
  unfold visitCapabilitiesStep; split <;> rfl

/-- visitTypesStep leaves the types list unchanged or appends one type with
non-empty fields. -/
lemma visitTypesStep_types (s : McpSpecification) (n : String) (jsDoc : Option String)
    (ms : List Member) :
    (visitTypesStep s n jsDoc ms).types = s.types ∨
    ∃ pt, (visitTypesStep s n jsDoc ms).types = s.types ++ [pt] ∧ pt.fields ≠ [] := by
  unfold visitTypesStep
  split
  · rcases hpt : parseTypeInterface n jsDoc ms with _ | pt
    · exact Or.inl rfl
    · exact Or.inr ⟨pt, rfl, parseTypeInterface_fields_ne_nil hpt⟩
  · exact Or.inl rfl

/-- visitNode preserves the invariant that every emitted type has a
non-empty fields list. -/
lemma visitNode_types_invariant (s : McpSpecification) (node : TopDecl)
    (hinv : ∀ t ∈ s.types, t.fields ≠ []) :
    ∀ t ∈ (visitNode s node).types, t.fields ≠ [] := by
  cases node with
  | varStmt decls =>
      intro t ht
      rw [visitNode, foldl_visitVarDecl_types] at ht
      exact hinv t ht
  | otherDecl => exact hinv
  | interfaceDecl interfaceName jsDoc members =>
      intro t ht
      rw [visitNode, visitCapabilitiesStep_types] at ht
      rcases visitTypesStep_types (visitOperationsStep s interfaceName members)
          interfaceName jsDoc members with heq | ⟨pt, heq, hpt⟩
      · rw [heq, visitOperationsStep_types] at ht
        exact hinv t ht
      · rw [heq, visitOperationsStep_types] at ht
        rcases List.mem_append.mp ht with hmem | hmem
        · exact hinv t hmem
        · rw [List.mem_singleton] at hmem
          subst hmem
          exact hpt

/-- buildSpec only emits types with non-empty fields. -/
lemma buildSpec_types_invariant (decls : List TopDecl) :
    ∀ t ∈ (buildSpec decls).types, t.fields ≠ [] := by
  have main : ∀ (ds : List TopDecl) (s : McpSpecification),
      (∀ t ∈ s.types, t.fields ≠ []) → ∀ t ∈ (ds.foldl visitNode s).types, t.fields ≠ [] := by
    intro ds
    induction ds with
    | nil => intro s hs; exact hs
    | cons d rest ih =>
        intro s hs
        rw [List.foldl_cons]
        exact ih (visitNode s d) (visitNode_types_invariant s d hs)
  exact main _ initialSpec (by intro t ht; cases ht)

/-- loadFromCache only returns what the cache file deserialized to. -/
lemma loadFromCache_eq_some {fs : FsState} {c : McpSpecification}
    (h : loadFromCache fs = some c) : fs.cacheParsed = .ok c := by
  unfold loadFromCache at h
  cases hacc : fs.cacheAccessOk with
  | false => rw [hacc] at h; simp at h
  | true =>
      rw [hacc] at h
      simp only [Bool.not_true] at h
      rcases hcs : fs.cacheStat with _ | cm <;> rw [hcs] at h
      · simp at h
      · rcases hss : fs.sourceStat with _ | sm <;> rw [hss] at h
        · simp at h
        · by_cases hle : cm ≤ sm
          · simp [hle] at h
          · simp only [if_neg hle, Bool.false_eq_true, reduceIte] at h
            rcases hcp : fs.cacheParsed with e | spec <;> rw [hcp] at h
            · simp at h
            · simp at h; rw [h]

/-- Every error validateSpecification produces is a plain AxeError object
whose code is the fixed parser code start followed by a padded number. -/
lemma validateSpecification_error_shape {spec : McpSpecification} {e : ErrVal}
    (h : validateSpecification spec = .error e) :
    ∃ n message details, e = createParserError n message details none := by
  unfold validateSpecification at h
  by_cases h1 : (spec.operations.length == 0) = true
  · simp [h1] at h
    exact ⟨2, _, _, h.symm⟩
  · by_cases h2 : (spec.types.length == 0) = true
    · simp [h1, h2] at h
      exact ⟨3, _, _, h.symm⟩
    · rcases hm : firstMissingOperation spec with _ | r
      · by_cases h4 : (spec.capabilities.length == 0) = true
        · simp [h1, h2, hm, h4] at h
          exact ⟨5, _, _, h.symm⟩
        · simp [h1, h2, hm, h4] at h
      · simp [h1, h2, hm] at h
        exact ⟨4, _, _, h.symm⟩

/-- Every error parseFromSource produces is a thrown low-level Error or a
parser AxeError from validation. -/
lemma parseFromSource_error_shape {fs : FsState} {e : ErrVal}
    (h : parseFromSource fs = .error e) :
    (∃ m, e = .jsError m) ∨ ∃ n message details, e = createParserError n message details none := by
  unfold parseFromSource at h
  rcases hs : fs.sourceRead with m | decls <;> rw [hs] at h
  · simp at h
    exact Or.inl ⟨m, h.symm⟩
  · dsimp only at h
    cases hv : validateSpecification (buildSpec decls) <;> rw [hv] at h
    · simp at h
      subst h
      exact Or.inr (validateSpecification_error_shape hv)
    · simp at h

/-! ## Concrete fixtures used by witnesses and counterexamples -/

/-- opMember: an operations-interface member with a two-argument type
reference. -/
def opMember (nm : String) : Member :=
  .propSig nm false
    (some (.typeRef "McpRequest" (some [.typeRef "InputT" none, .typeRef "OutputT" none])))
    (some ("Does " ++ nm))

/-- goodDecls: a schema source declaring a version constant, the five
canonical operations, one type interface with two fields, and one
capability. -/
def goodDecls : List TopDecl :=
  [ .varStmt [{ name := some "MCP_VERSION", init := some (.strLit "2.0.0") }],
    .interfaceDecl "McpOperations" none
      [opMember "Get", opMember "List", opMember "Create", opMember "Update", opMember "Delete"],
    .interfaceDecl "WidgetType" (some "A widget")
      [ .propSig "id" false (some (.typeRef "WidgetId" none)) none,
        .propSig "tags" false (some (.arrayType (.typeRef "Tag" none))) none ],
    .interfaceDecl "McpCapabilities" none
      [ .propSig "Streaming" false none (some "Streams") ] ]

/-- goodSpec: the specification the walk builds from goodDecls. -/
def goodSpec : McpSpecification := buildSpec goodDecls

/-- wType: the one type goodSpec contains. -/
def wType : McpType :=
  { name := "WidgetType", description := "A widget",
    fields :=
      [ { name := "id", type := "WidgetId", required := true, repeated := false,
          description := "id field" },
        { name := "tags", type := "Tag", required := true, repeated := true,
          description := "tags field" } ] }

/-- fsGood: no usable cache, readable well-formed source, writable cache. -/
def fsGood : FsState :=
  { cacheAccessOk := false, cacheStat := none, sourceStat := some 1,
    cacheParsed := .error (), sourceRead := .ok goodDecls, cacheWriteOk := true }

/-- fsEmptySource: no usable cache and a source with no declarations. -/
def fsEmptySource : FsState :=
  { cacheAccessOk := false, cacheStat := none, sourceStat := some 1,
    cacheParsed := .error (), sourceRead := .ok [], cacheWriteOk := true }

/-- opNamed: a minimal operation record with the given name. -/
def opNamed (nm : String) : McpOperation :=
  { name := nm, description := "d", inputType := "I", outputType := "O", required := true }

/-- specMissingUpdate: a specification with operations Get, List, Create,
Delete (Update absent), one type and one capability. -/
def specMissingUpdate : McpSpecification :=
  { version := "1.0.0",
    operations := [opNamed "Get", opNamed "List", opNamed "Create", opNamed "Delete"],
    types := [wType],
    capabilities := [{ name := "Streaming", description := "d", required := true }] }

/-! ## Claim theorems -/

/-- C1: post-walk validation performs the four checks fail-fast in source
order (zero operations, zero types, missing canonical operation, zero
capabilities), each with a distinct parser error code; the canonical list
is Get, List, Create, Update, Delete in that order, and when exactly one
canonical name is missing the error identifies that name. -/
theorem validateSpecification_four_checks (spec : McpSpecification) (r : String) :
    (requiredOperations = ["Get", "List", "Create", "Update", "Delete"]) ∧
    (spec.operations = [] →
      validateSpecification spec = .error (createParserError 2
        "MCP specification does not define any operations" (some [("path", MCP_SPEC_PATH)]))) ∧
    (spec.operations ≠ [] → spec.types = [] →
      validateSpecification spec = .error (createParserError 3
        "MCP specification does not define any types" (some [("path", MCP_SPEC_PATH)]))) ∧
    (spec.operations ≠ [] → spec.types ≠ [] →
      ∀ l1 l2, requiredOperations = l1 ++ r :: l2 →
      (∀ x ∈ l1, hasOperation spec x = true) → hasOperation spec r = false →
      validateSpecification spec = .error (createParserError 4
        ("MCP specification is missing required operation: " ++ r)
        (some [("path", MCP_SPEC_PATH)]))) ∧
    (spec.operations ≠ [] → spec.types ≠ [] → r ∈ requiredOperations →
      hasOperation spec r = false →
      (∀ r2 ∈ requiredOperations, r2 ≠ r → hasOperation spec r2 = true) →
      validateSpecification spec = .error (createParserError 4
        ("MCP specification is missing required operation: " ++ r)
        (some [("path", MCP_SPEC_PATH)]))) ∧
    (spec.operations ≠ [] → spec.types ≠ [] →
      (∀ r2 ∈ requiredOperations, hasOperation spec r2 = true) →
      spec.capabilities = [] →
      validateSpecification spec = .error (createParserError 5
        "MCP specification does not define any capabilities" (some [("path", MCP_SPEC_PATH)]))) ∧
    ((createParserError 2 "" none none).codeOf ≠ (createParserError 3 "" none none).codeOf ∧
     (createParserError 2 "" none none).codeOf ≠ (createParserError 4 "" none none).codeOf ∧
     (createParserError 2 "" none none).codeOf ≠ (createParserError 5 "" none none).codeOf ∧
     (createParserError 3 "" none none).codeOf ≠ (createParserError 4 "" none none).codeOf ∧
     (createParserError 3 "" none none).codeOf ≠ (createParserError 5 "" none none).codeOf ∧
     (createParserError 4 "" none none).codeOf ≠ (createParserError 5 "" none none).codeOf) := by
  refine ⟨rfl, ?_, ?_, ?_, ?_, ?_, ?_⟩
  · intro h1
    simp [validateSpecification, h1]
  · intro h1 h2
    simp [validateSpecification, length_beq_zero_eq_false h1, h2]
  · intro h1 h2 l1 l2 heq hl1 hmiss
    have hfind : firstMissingOperation spec = some r := by
      unfold firstMissingOperation
      rw [heq]
      exact find?_append_cons l1 l2 _ r (fun x hx => by simp [hl1 x hx]) (by simp [hmiss])
    simp [validateSpecification, length_beq_zero_eq_false h1, length_beq_zero_eq_false h2,
      hfind]
  · intro h1 h2 hmem hmiss hothers
    have hfind : firstMissingOperation spec = some r :=
      find?_eq_some_of_unique _ _ r hmem (by simp [hmiss])
        (fun x hx hne => by simp [hothers x hx hne])
    simp [validateSpecification, length_beq_zero_eq_false h1, length_beq_zero_eq_false h2,
      hfind]
  · intro h1 h2 hall h4
    have hfind : firstMissingOperation spec = none :=
      find?_eq_none_of_all _ _ (fun x hx => by simp [hall x hx])
    simp [validateSpecification, length_beq_zero_eq_false h1, length_beq_zero_eq_false h2,
      hfind, h4]
  · refine ⟨?_, ?_, ?_, ?_, ?_, ?_⟩ <;> decide

/-- C1 witness: a specification missing exactly the canonical operation
Update fails the validation with parser error 4 naming Update. -/
theorem validateSpecification_four_checks_witness :
    validateSpecification specMissingUpdate = .error (createParserError 4
      ("MCP specification is missing required operation: " ++ "Update")
      (some [("path", MCP_SPEC_PATH)])) :=
  (validateSpecification_four_checks specMissingUpdate "Update").2.2.2.2.1
    (by decide) (by decide) (by decide) (by decide) (by decide)

/-- C3: every failure of parseSpecification is a plain AxeError value whose
code string begins with the fixed AXE parser code start; the caller never
receives a raw low-level exception. -/
theorem parseSpecification_error_is_parser_error (fs : FsState) (e : ErrVal)
    (h : parseSpecification fs = .error e) :
    ∃ code message details cause, e = .axeError code message details cause ∧
      ∃ rest, code = axeParserCodeStart ++ rest := by
  unfold parseSpecification parseSpecificationFull at h
  rcases hl : loadFromCache fs with _ | c <;> rw [hl] at h
  · cases hp : parseFromSource fs <;> rw [hp] at h
    case error err =>
      cases err with
      | jsError m =>
          simp at h
          exact ⟨_, _, _, _, h.symm, padStart3 1, rfl⟩
      | axeError c2 m2 d2 k2 =>
          simp at h
          rcases parseFromSource_error_shape hp with ⟨m, hm⟩ | ⟨n, message, details, hshape⟩
          · simp at hm
          · refine ⟨axeParserCodeStart ++ padStart3 n, message, details, none, ?_, padStart3 n, rfl⟩
            rw [← h, hshape]
            rfl
    case ok spec => simp at h
  · simp at h

/-- C3 witness: an empty schema source fails with the zero-operations
parser error, an AxeError whose code carries the parser code start. -/
theorem parseSpecification_error_is_parser_error_witness :
    ∃ code message details cause,
      createParserError 2 "MCP specification does not define any operations"
          (some [("path", MCP_SPEC_PATH)]) none =
        ErrVal.axeError code message details cause ∧
      ∃ rest, code = axeParserCodeStart ++ rest :=
  parseSpecification_error_is_parser_error fsEmptySource
    (createParserError 2 "MCP specification does not define any operations"
      (some [("path", MCP_SPEC_PATH)]) none) (by rfl)

/-- C4: a union-shaped member type resolves to its first alternative — the
extracted field type equals the first alternative's resolution, the
remaining alternatives never influence the result, and a union-typed
property signature always yields exactly one field (union simplification
never fails). -/
theorem extractFieldType_union_first (t : TypeNode) (rest rest2 : List TypeNode)
    (nm : String) (q : Bool) (doc : Option String) (pre post : List Member) :
    extractFieldType (some (.unionType (t :: rest))) = extractFieldType (some t) ∧
    extractFieldType (some (.unionType (t :: rest))) =
      extractFieldType (some (.unionType (t :: rest2))) ∧
    parseTypeFields (pre ++ Member.propSig nm q (some (.unionType (t :: rest))) doc :: post) =
      parseTypeFields pre ++
        { name := stripQuotes nm, type := extractFieldType (some t), required := !q,
          repeated := false,
          description := orDefaultStr doc (stripQuotes nm ++ " field") } ::
        parseTypeFields post := by
  refine ⟨rfl, rfl, ?_⟩
  rw [parseTypeFields_append]
  rfl

/-- C5: the operations walk keeps exactly the property signatures whose
annotation is a type reference; each yields an Operation whose inputType
and outputType are the first and second type arguments' texts (defaulting
to the untyped placeholder when the argument is absent), whose required
flag is the inverse of the optional marker, and whose description is the
attached JSDoc text or the generated default. -/
theorem parseOperationsInterface_member_shape (members : List Member) :
    parseOperationsInterface members = members.filterMap (fun m =>
      match m with
      | .propSig nm q (some (.typeRef _ args)) doc =>
          some { name := stripQuotes nm,
                 description := orDefaultStr doc ("MCP " ++ stripQuotes nm ++ " operation"),
                 inputType := (match args with | some (a :: _) => a.getText | _ => "any"),
                 outputType := (match args with | some (_ :: b :: _) => b.getText | _ => "any"),
                 required := !q }
      | _ => none) := by
  induction members with
  | nil => rfl
  | cons m rest ih =>
      cases m with
      | otherMember => simpa [parseOperationsInterface, List.filterMap_cons] using ih
      | propSig nm q ty doc =>
          cases ty with
          | none => simpa [parseOperationsInterface, List.filterMap_cons] using ih
          | some tn =>
              cases tn with
              | typeRef n args =>
                  cases args with
                  | none =>
                      simpa [parseOperationsInterface, List.filterMap_cons,
                        extractInputType, extractOutputType] using ih
                  | some l =>
                      cases l with
                      | nil =>
                          simpa [parseOperationsInterface, List.filterMap_cons,
                            extractInputType, extractOutputType] using ih
                      | cons a l2 =>
                          cases l2 with
                          | nil =>
                              simpa [parseOperationsInterface, List.filterMap_cons,
                                extractInputType, extractOutputType] using ih
                          | cons b l3 =>
                              simpa [parseOperationsInterface, List.filterMap_cons,
                                extractInputType, extractOutputType] using ih
              | arrayType e => simpa [parseOperationsInterface, List.filterMap_cons] using ih
              | unionType ts_ => simpa [parseOperationsInterface, List.filterMap_cons] using ih
              | other s => simpa [parseOperationsInterface, List.filterMap_cons] using ih

/-- C6: repeated is true exactly for array-shaped types and for Array type
references carrying at least one type argument; in both shapes the field
type resolves through the element type; a missing annotation is not
repeated. -/
theorem isRepeatedType_characterization (ot : Option TypeNode) (e a : TypeNode)
    (args : List TypeNode) :
    (isRepeatedType ot = true ↔
      (∃ elem, ot = some (.arrayType elem)) ∨
      (∃ hd tl, ot = some (.typeRef "Array" (some (hd :: tl))))) ∧
    extractFieldType (some (.arrayType e)) = extractFieldType (some e) ∧
    extractFieldType (some (.typeRef "Array" (some (a :: args)))) = extractFieldType (some a) ∧
    isRepeatedType none = false := by
  refine ⟨⟨?_, ?_⟩, rfl, rfl, rfl⟩
  · intro h
    match ot with
    | none => simp [isRepeatedType] at h
    | some (.arrayType elem) => exact Or.inl ⟨elem, rfl⟩
    | some (.typeRef n none) => simp [isRepeatedType] at h
    | some (.typeRef n (some [])) => simp [isRepeatedType] at h
    | some (.typeRef n (some (hd :: tl))) =>
        simp [isRepeatedType] at h
        exact Or.inr ⟨hd, tl, by rw [h]⟩
    | some (.unionType ts_) => simp [isRepeatedType] at h
    | some (.other s) => simp [isRepeatedType] at h
  · rintro (⟨elem, rfl⟩ | ⟨hd, tl, rfl⟩)
    · rfl
    · simp [isRepeatedType]

/-- C2: the cache is consulted only when its mtime is strictly newer than
the source mtime. A cache whose mtime is less than or equal to the source
mtime (or an absent cache file) is bypassed and the run behaves like a run
with no cache at all; a strictly newer, readable cache makes the run return
the deserialized cached value whatever the source would have read or
parsed to. -/
theorem parseSpecification_cache_freshness (fs : FsState) (cm sm : Int)
    (c : McpSpecification) :
    (fs.cacheStat = some cm → fs.sourceStat = some sm → cm ≤ sm →
      loadFromCache fs = none ∧
      parseSpecification fs = parseSpecification { fs with cacheAccessOk := false }) ∧
    (fs.cacheAccessOk = false → loadFromCache fs = none) ∧
    (fs.cacheAccessOk = true → fs.cacheStat = some cm → fs.sourceStat = some sm →
      sm < cm → fs.cacheParsed = .ok c →
      ∀ src : Except String (List TopDecl),
        parseSpecification { fs with sourceRead := src } = .ok c) := by
  refine ⟨?_, ?_, ?_⟩
  · intro hcs hss hle
    have hnone : loadFromCache fs = none := by
      unfold loadFromCache
      rw [hcs, hss]
      cases hacc : fs.cacheAccessOk <;> simp [hle]
    have hnone2 : loadFromCache { fs with cacheAccessOk := false } = none := by
      simp [loadFromCache]
    refine ⟨hnone, ?_⟩
    unfold parseSpecification parseSpecificationFull
    rw [hnone, hnone2]
    rfl
  · intro hacc
    unfold loadFromCache
    rw [hacc]
    simp
  · intro hacc hcs hss hlt hcp src
    have hload : loadFromCache { fs with sourceRead := src } = some c := by
      unfold loadFromCache
      simp only
      rw [hacc, hcs, hss, hcp]
      simp [not_le.mpr hlt]
    unfold parseSpecification parseSpecificationFull
    rw [hload]

/-- cachedOnlySpec: a distinctive specification value present only in the
cache fixture, never derivable from the stub source below. -/
def cachedOnlySpec : McpSpecification :=
  { version := "7.7.7",
    operations := [opNamed "Get", opNamed "List", opNamed "Create", opNamed "Update",
      opNamed "Delete"],
    types := [wType],
    capabilities := [{ name := "Streaming", description := "d", required := true }] }

/-- fsFreshCache: cache file present, mtime 5 strictly newer than source
mtime 1, deserializing to cachedOnlySpec; the source stub is unreadable. -/
def fsFreshCache : FsState :=
  { cacheAccessOk := true, cacheStat := some 5, sourceStat := some 1,
    cacheParsed := .ok cachedOnlySpec, sourceRead := .error "stub read failure",
    cacheWriteOk := true }

/-- C2 witness: with a strictly newer cache the run returns the cached
value even though the source stub would fail to read. -/
theorem parseSpecification_cache_freshness_witness :
    parseSpecification { fsFreshCache with sourceRead := Except.error "stub read failure" } =
      .ok cachedOnlySpec :=
  (parseSpecification_cache_freshness fsFreshCache 5 1 cachedOnlySpec).2.2
    rfl rfl rfl (by decide) rfl (Except.error "stub read failure")

/-- badCachedSpec: a hand-edited cache content carrying a type with zero
fields. -/
def badCachedSpec : McpSpecification :=
  { version := "9.9.9",
    operations := [opNamed "Get", opNamed "List", opNamed "Create", opNamed "Update",
      opNamed "Delete"],
    types := [{ name := "EmptyType", description := "d", fields := [] }],
    capabilities := [{ name := "Streaming", description := "d", required := true }] }

/-- fsPoisonedCache: the cache file is strictly newer than the source and
deserializes to badCachedSpec. -/
def fsPoisonedCache : FsState :=
  { cacheAccessOk := true, cacheStat := some 2, sourceStat := some 1,
    cacheParsed := .ok badCachedSpec, sourceRead := .ok goodDecls, cacheWriteOk := true }

/-- C7 counterexample: parseSpecification can return a Specification
containing a type with an empty fields array, because a strictly newer
cache file is deserialized and returned without the parse-time drop of
empty types being re-checked. -/
theorem parseSpecification_empty_fields_from_cache_cex :
    parseSpecification fsPoisonedCache = .ok badCachedSpec ∧
    ∃ t, t ∈ badCachedSpec.types ∧ t.fields = [] :=
  ⟨rfl, ⟨{ name := "EmptyType", description := "d", fields := [] }, by decide, rfl⟩⟩

/-- C7 (amended): every Type in a Specification produced by the
parse-from-source path has a non-empty fields array — a type interface
yielding zero extractable fields is dropped, never emitted. -/
theorem parseFromSource_types_fields_nonempty (fs : FsState) (spec : McpSpecification)
    (h : parseFromSource fs = .ok spec) : ∀ t ∈ spec.types, t.fields ≠ [] := by
  unfold parseFromSource at h
  rcases hs : fs.sourceRead with m | decls <;> rw [hs] at h
  · simp at h
  · dsimp only at h
    cases hv : validateSpecification (buildSpec decls) <;> rw [hv] at h
    · simp at h
    · simp at h
      rw [← h]
      exact buildSpec_types_invariant decls

/-- C7 witness: the WidgetType entry of the specification parsed from
goodDecls has non-empty fields. -/
theorem parseFromSource_types_fields_nonempty_witness : wType.fields ≠ [] :=
  parseFromSource_types_fields_nonempty fsGood goodSpec (by rfl) wType (by decide)

/-- C8: every cache-load failure (absent file, failed stat on either file,
failed read or JSON parse) is a cache miss, after which the run proceeds to
the parser; a cache-write failure is swallowed, surfacing only as the
logged warning, and the run still returns the parsed specification. -/
theorem cache_failures_best_effort (fs : FsState) (u : Unit) (spec : McpSpecification) :
    (fs.cacheAccessOk = false → loadFromCache fs = none) ∧
    (fs.cacheStat = none → loadFromCache fs = none) ∧
    (fs.sourceStat = none → loadFromCache fs = none) ∧
    (fs.cacheParsed = .error u → loadFromCache fs = none) ∧
    (loadFromCache fs = none → parseFromSource fs = .ok spec →
      parseSpecificationFull fs = (.ok spec, cacheSpecification fs spec)) ∧
    (loadFromCache fs = none → parseFromSource fs = .ok spec → fs.cacheWriteOk = false →
      parseSpecificationFull fs = (.ok spec, ["Failed to cache MCP specification"])) := by
  refine ⟨?_, ?_, ?_, ?_, ?_, ?_⟩
  · intro hacc
    unfold loadFromCache
    rw [hacc]
    simp
  · intro hcs
    unfold loadFromCache
    split
    · rfl
    · split
      · rename_i cm sm hcs2 hss2
        rw [hcs] at hcs2
        cases hcs2
      · rfl
  · intro hss
    unfold loadFromCache
    split
    · rfl
    · split
      · rename_i cm sm hcs2 hss2
        rw [hss] at hss2
        cases hss2
      · rfl
  · intro hcp
    unfold loadFromCache
    split
    · rfl
    · split
      · split
        · rfl
        · rw [hcp]
      · rfl
  · intro hnone hok
    unfold parseSpecificationFull
    rw [hnone, hok]
  · intro hnone hok hwrite
    unfold parseSpecificationFull
    rw [hnone, hok]
    unfold cacheSpecification
    rw [hwrite]
    rfl

/-- fsCacheBroken: the cache file exists and is strictly newer than the
source but fails to read or JSON-parse; the source is fine; the cache
write also fails. -/
def fsCacheBroken : FsState :=
  { cacheAccessOk := true, cacheStat := some 5, sourceStat := some 1,
    cacheParsed := .error (), sourceRead := .ok goodDecls, cacheWriteOk := false }

/-- C8 witness: with a broken cache read and a failing cache write, the run
still returns the parsed specification and only logs the write warning. -/
theorem cache_failures_best_effort_witness :
    parseSpecificationFull fsCacheBroken =
      (.ok goodSpec, ["Failed to cache MCP specification"]) :=
  (cache_failures_best_effort fsCacheBroken () goodSpec).2.2.2.2.2 rfl rfl rfl

/-- C9: re-running the parse over the same unchanged source returns the
same specification value: when the first run parsed from source and the
second run's cache either misses or holds the JSON
serialize-then-deserialize round trip of the first result, the second run
returns a value equal field-for-field to the first. -/
theorem parseSpecification_idempotent (fs1 fs2 : FsState) (spec1 : McpSpecification)
    (h1 : loadFromCache fs1 = none)
    (hp : parseSpecification fs1 = .ok spec1)
    (hsrc : fs2.sourceRead = fs1.sourceRead)
    (hcache : fs2.cacheParsed = .error () ∨
      (∃ s, decodeSpec (encodeSpec spec1) = some s ∧ fs2.cacheParsed = .ok s)) :
    parseSpecification fs2 = .ok spec1 := by
  have hps : parseFromSource fs1 = .ok spec1 := by
    unfold parseSpecification parseSpecificationFull at hp
    rw [h1] at hp
    cases hq : parseFromSource fs1 with
    | error err =>
        rw [hq] at hp
        cases err <;> simp at hp
    | ok s =>
        rw [hq] at hp
        simp at hp
        rw [hp]
  have hps2 : parseFromSource fs2 = .ok spec1 := by
    unfold parseFromSource at hps ⊢
    rw [hsrc]
    exact hps
  rcases hl2 : loadFromCache fs2 with _ | c
  · unfold parseSpecification parseSpecificationFull
    rw [hl2, hps2]
  · have hcp2 : fs2.cacheParsed = .ok c := loadFromCache_eq_some hl2
    rcases hcache with herr | ⟨s, hdec, hok⟩
    · rw [herr] at hcp2
      cases hcp2
    · rw [hok] at hcp2
      injection hcp2 with hsc
      rw [decodeSpec_encodeSpec] at hdec
      injection hdec with hds
      unfold parseSpecification parseSpecificationFull
      rw [hl2]
      rw [← hsc, ← hds]

/-- fsSecondRun: the state of a second run after the first run over fsGood
wrote its result into the cache: cache now strictly newer, deserializing
to the first result, same source. -/
def fsSecondRun : FsState :=
  { cacheAccessOk := true, cacheStat := some 5, sourceStat := some 1,
    cacheParsed := .ok goodSpec, sourceRead := .ok goodDecls, cacheWriteOk := true }

/-- C9 witness: the second run over the unchanged source returns the first
run's specification value. -/
theorem parseSpecification_idempotent_witness :
    parseSpecification fsSecondRun = .ok goodSpec :=
  parseSpecification_idempotent fsGood fsSecondRun goodSpec rfl rfl rfl
    (Or.inr ⟨goodSpec, by rfl, rfl⟩)

/-- C10: a wrapped function's normal result passes through; a thrown
Error instance with a code property is rethrown unchanged; every other
thrown value — including a plain-object AxeError, which is not an Error
instance — is replaced by errorCreator(999, the generic message, details
naming the function, cause), the cause being the thrown Error itself or a
new Error built from the thrown value's string form. -/
theorem withErrorHandling_behavior {R : Type} (fnName : String)
    (errorCreator : Nat → String → Option (List (String × String)) → Option ErrVal → ErrVal)
    (outcome : Except ThrownVal R) (r : R) (t : ThrownVal) (m : String) :
    (outcome = .ok r → withErrorHandling fnName errorCreator outcome = .ok r) ∧
    (outcome = .error (.errVal true m) →
      withErrorHandling fnName errorCreator outcome = .error (.rethrown (.errVal true m))) ∧
    (outcome = .error t → (∀ msg, t ≠ .errVal true msg) →
      withErrorHandling fnName errorCreator outcome =
        .error (.wrapped (errorCreator 999 "An unexpected error occurred"
          (some [("function", fnName)]) (some (causeOfThrown t))))) ∧
    (∀ e2 : ErrVal, causeOfThrown (.axeErrorObject e2) = .jsError "[object Object]") ∧
    (∀ m2 : String, causeOfThrown (.errVal false m2) = .jsError m2) ∧
    (∀ s : String, causeOfThrown (.otherVal s) = .jsError s) := by
  refine ⟨?_, ?_, ?_, fun e2 => rfl, fun m2 => rfl, fun s => rfl⟩
  · intro h
    rw [h]
    rfl
  · intro h
    rw [h]
    rfl
  · intro h hne
    rw [h]
    cases t with
    | errVal hc msg =>
        cases hc with
        | false => rfl
        | true => exact absurd rfl (hne msg)
    | axeErrorObject e2 => rfl
    | otherVal s => rfl

/-- C10 witness: a thrown plain-object AxeError (not an Error instance) is
wrapped, not rethrown: the wrapper throws the errorCreator value with code
999 details naming the function and cause built from the object's string
form. -/
theorem withErrorHandling_behavior_witness :
    withErrorHandling "doWork" (createError "AXE-GENERATOR")
        (Except.error (ThrownVal.axeErrorObject (ErrVal.axeError "AXE-PARSER002" "m" none none)) :
          Except ThrownVal Nat) =
      .error (.wrapped (createError "AXE-GENERATOR" 999 "An unexpected error occurred"
        (some [("function", "doWork")]) (some (.jsError "[object Object]")))) :=
  (withErrorHandling_behavior "doWork" (createError "AXE-GENERATOR")
    (Except.error (ThrownVal.axeErrorObject (ErrVal.axeError "AXE-PARSER002" "m" none none)))
    0 (ThrownVal.axeErrorObject (ErrVal.axeError "AXE-PARSER002" "m" none none)) "").2.2.1
    rfl (fun _ h => ThrownVal.noConfusion h)

end Axhandle
